import Mathlib

/-!
Shallow embedding of the synchronization and caching engine of the
garmin-explorer repository (src/lib/database.py, src/lib/cache.py,
src/lib/garmin.py), together with proofs of the frozen claims about it.

Modelling conventions:
* SQLite REAL columns are modelled as exact rationals (`Rat`); IEEE-754
  rounding is outside the scope of the structural claims proved here.
* Timestamps produced by `datetime.now().isoformat()` are modelled as an
  abstract monotone clock (`Nat`); ISO formatting of a monotone clock is
  order-preserving, so comparisons are unaffected.
* The `week_start` column stores `monday.isoformat()` in the source; since
  `date.isoformat` is injective on dates, the week key is modelled directly
  as the Monday's day number (an `Int`).
* The sqlite3 connection behaviour relevant to the claims is modelled
  explicitly: a fresh connection has `last_insert_rowid = 0`; an INSERT sets
  it to the new rowid; the UPDATE branch of an upsert leaves it unchanged;
  `get_db` commits on success and, when the body raises, skips the commit so
  that closing the connection rolls the transaction back.
-/

namespace GarminExplorer

/-! Python-level values -/

/-- Value stored under the "activityId" key of a raw record.  The remote
source may send an integer or a string; SQLite stores the value dynamically
typed, so identifiers of different types are distinct keys. -/
inductive IdVal where
  | intId (i : Int)
  | strId (s : String)
deriving DecidableEq, Repr

/-- Python truthiness of an identifier value: None is handled by the caller;
0 and "" are falsy. -/
def IdVal.truthy : IdVal → Bool
  | .intId i => i != 0
  | .strId s => s != ""

/-- Python `x or y` on two optional strings (None and "" are falsy). -/
def pyOrStr (x y : Option String) : Option String :=
  match x with
  | some s => if s = "" then y else some s
  | none => y

/-- Python `s.startswith(pre)`, computed on the character lists (equivalent
to String.startsWith, written so that it evaluates inside the kernel). -/
def pyStartsWith (s pre : String) : Bool := pre.toList.isPrefixOf s.toList

/-- Python `(d.get(k, 0) or 0)` on a numeric field: an absent key, a None
value and 0 itself all yield 0. -/
def orZeroQ : Option Rat → Rat
  | some q => q
  | none => 0

/-- Python `(d.get(k, 0) or 0)` on an integer field. -/
def orZeroZ : Option Int → Int
  | some i => i
  | none => 0

/-- A raw activity record returned by the remote adapter (a Python dict).
Only the keys the code reads are modelled; `none` means the key is absent or
holds None. -/
structure RawActivity where
  activityId : Option IdVal := none
  typeKey : Option String := none
  distance : Option Rat := none
  duration : Option Rat := none
  calories : Option Int := none
  elevationGain : Option Rat := none
  startTimeLocal : Option String := none
  startTimeGMT : Option String := none
deriving DecidableEq, Repr

/-! Civil-date arithmetic and ISO timestamp parsing -/

/-- Days since 0000-03-01 of a Gregorian civil date (valid for year ≥ 1);
the standard days-from-civil computation. -/
def daysFromCivil (y m d : Nat) : Nat :=
  let yy := if m ≤ 2 then y - 1 else y
  let era := yy / 400
  let yoe := yy % 400
  let mp := (m + 9) % 12
  let doy := (153 * mp + 2) / 5 + (d - 1)
  let doe := yoe * 365 + yoe / 4 - yoe / 100 + doy
  era * 146097 + doe

/-- Gregorian leap-year test. -/
def isLeap (y : Nat) : Bool :=
  (y % 4 = 0 && y % 100 != 0) || y % 400 = 0

/-- Number of days in a month. -/
def daysInMonth (y m : Nat) : Nat :=
  if m = 2 then (if isLeap y then 29 else 28)
  else if m = 4 || m = 6 || m = 9 || m = 11 then 30
  else 31

/-- Value of a decimal digit character. -/
def digitVal (c : Char) : Option Nat :=
  if c.isDigit then some (c.toNat - 48) else none

/-- Two decimal digits. -/
def digits2 (a b : Char) : Option Nat := do
  let x ← digitVal a
  let y ← digitVal b
  pure (10 * x + y)

/-- Four decimal digits. -/
def digits4 (a b c d : Char) : Option Nat := do
  let x ← digits2 a b
  let y ← digits2 c d
  pure (100 * x + y)

/-- All characters are decimal digits. -/
def allDigits : List Char → Bool
  | [] => true
  | c :: cs => c.isDigit && allDigits cs

/-- Optional fractional-seconds suffix ".f" to ".ffffff". -/
def fracOk : List Char → Bool
  | [] => true
  | '.' :: ds => decide (1 ≤ ds.length) && decide (ds.length ≤ 6) && allDigits ds
  | _ => false

/-- Optional seconds suffix of a time part: empty, or ":SS" plus an optional
fraction. -/
def secondsOk : List Char → Bool
  | [] => true
  | ':' :: s1 :: s2 :: rest =>
    (match digits2 s1 s2 with
     | some s => decide (s ≤ 59) && fracOk rest
     | none => false)
  | _ => false

/-- Time part after the civil date: empty, or a space/T separator followed by
"HH:MM" with optional seconds and fraction. -/
def timePartOk : List Char → Bool
  | [] => true
  | sep :: h1 :: h2 :: ':' :: m1 :: m2 :: rest =>
    (sep == ' ' || sep == 'T') &&
    (match digits2 h1 h2, digits2 m1 m2 with
     | some h, some mi => decide (h ≤ 23) && decide (mi ≤ 59) && secondsOk rest
     | _, _ => false)
  | _ => false

/-- Modelled from the Python standard library (not part of src/):
`datetime.fromisoformat` followed by taking the civil date, restricted to the
timezone-free "YYYY-MM-DD[ HH:MM[:SS[.ffffff]]]" shapes the adapter emits.
Returns the date as a day number (days since 0000-03-01), or `none` exactly
when Python raises ValueError. -/
def parseIsoDay (s : String) : Option Int :=
  match s.toList with
  | y1 :: y2 :: y3 :: y4 :: '-' :: m1 :: m2 :: '-' :: d1 :: d2 :: rest =>
    match digits4 y1 y2 y3 y4, digits2 m1 m2, digits2 d1 d2 with
    | some y, some m, some d =>
      if 1 ≤ y ∧ 1 ≤ m ∧ m ≤ 12 ∧ 1 ≤ d ∧ d ≤ daysInMonth y m ∧ timePartOk rest
      then some (daysFromCivil y m d : Int)
      else none
    | _, _, _ => none
  | _ => none

/-- Python `date.weekday()` on a day number, Monday = 0.  Day 719468
(1970-01-01) is a Thursday. -/
def weekdayOf (d : Int) : Int := (d + 2) % 7

/-- Monday on or before the given day:
`dt.date() - timedelta(days=dt.weekday())`. -/
def mondayOf (d : Int) : Int := d - weekdayOf d

/-! Database state -/

/-- Row of the users table. -/
structure UserRow where
  name : String
  garmin_email : Option String
  display_name : Option String
  last_synced_at : Option Nat
deriving DecidableEq, Repr

/-- Row of the cached_activities table. -/
structure ActivityRow where
  id : Nat
  user_name : String
  garmin_id : IdVal
  activity_type : String
  distance_m : Rat
  elevation_gain_m : Rat
  duration_s : Rat
  calories : Int
  start_time : Option String
  activity_json : RawActivity
  fetched_at : Nat
deriving DecidableEq, Repr

/-- Row of the weekly_stats table (week_start is the Monday day number). -/
structure WeeklyRow where
  user_name : String
  week_start : Int
  total_distance_m : Rat
  total_duration_s : Rat
  total_activities : Nat
  total_calories : Int
  computed_at : Nat
deriving DecidableEq, Repr

/-- The persistent store (data/garmin.db).  `nextActivityId` is the
AUTOINCREMENT counter of cached_activities, 1 on a fresh database. -/
structure DB where
  users : List UserRow
  activities : List ActivityRow
  nextActivityId : Nat
  weekly : List WeeklyRow
deriving DecidableEq, Repr

/-- A fresh, empty database. -/
def emptyDB : DB := ⟨[], [], 1, []⟩

/-! database.py operations -/

/-- DO UPDATE branch of upsert_user on one row: email and display name are
overwritten unconditionally, last_synced_at via
COALESCE(excluded.last_synced_at, last_synced_at). -/
def userUpd (name : String) (garmin_email display_name : Option String)
    (last_synced_at : Option Nat) (r : UserRow) : UserRow :=
  if r.name == name then
    ⟨r.name, garmin_email, display_name,
      match last_synced_at with
      | some t => some t
      | none => r.last_synced_at⟩
  else r

/-- upsert_user: INSERT ... ON CONFLICT(name) DO UPDATE. -/
def upsert_user (db : DB) (name : String) (garmin_email : Option String)
    (display_name : Option String) (last_synced_at : Option Nat) : DB :=
  if db.users.any (fun r => r.name == name) then
    { db with users := db.users.map (userUpd name garmin_email display_name last_synced_at) }
  else
    { db with users := db.users ++ [⟨name, garmin_email, display_name, last_synced_at⟩] }

/-- Conflict target of the activities upsert. -/
def activityMatches (user : String) (gid : IdVal) (r : ActivityRow) : Bool :=
  r.user_name == user && r.garmin_id == gid

/-- Field extraction performed at the INSERT call site of upsert_activities. -/
def rowOfRaw (rowid : Nat) (user : String) (now : Nat) (a : RawActivity)
    (gid : IdVal) : ActivityRow where
  id := rowid
  user_name := user
  garmin_id := gid
  activity_type := a.typeKey.getD "unknown"
  distance_m := orZeroQ a.distance
  elevation_gain_m := orZeroQ a.elevationGain
  duration_s := orZeroQ a.duration
  calories := orZeroZ a.calories
  start_time := pyOrStr a.startTimeLocal a.startTimeGMT
  activity_json := a
  fetched_at := now

/-- DO UPDATE branch: every field except the key is overwritten and
fetched_at is refreshed. -/
def updateRow (now : Nat) (a : RawActivity) (r : ActivityRow) : ActivityRow :=
  { r with
    activity_type := a.typeKey.getD "unknown"
    distance_m := orZeroQ a.distance
    elevation_gain_m := orZeroQ a.elevationGain
    duration_s := orZeroQ a.duration
    calories := orZeroZ a.calories
    start_time := pyOrStr a.startTimeLocal a.startTimeGMT
    activity_json := a
    fetched_at := now }

/-- An open sqlite3 connection: the database it sees plus its
last_insert_rowid, which is 0 on a fresh connection. -/
structure Conn where
  db : DB
  lastrowid : Nat
deriving DecidableEq, Repr

/-- One execution of the INSERT ... ON CONFLICT(user_name, garmin_id)
DO UPDATE statement: the insert branch assigns the next rowid and sets
last_insert_rowid; the update branch leaves last_insert_rowid unchanged. -/
def execUpsertActivity (user : String) (now : Nat) (c : Conn) (a : RawActivity)
    (gid : IdVal) : Conn :=
  if c.db.activities.any (activityMatches user gid) then
    { c with db := { c.db with activities := c.db.activities.map (fun r =>
        if activityMatches user gid r then updateRow now a r else r) } }
  else
    { db := { c.db with
        activities := c.db.activities ++ [rowOfRaw c.db.nextActivityId user now a gid]
        nextActivityId := c.db.nextActivityId + 1 }
      lastrowid := c.db.nextActivityId }

/-- Loop body of upsert_activities.  Records without a truthy activityId are
skipped (continue); each kept record executes one statement; after each
statement the count is bumped when the connection-level lastrowid is non-zero
(the "lastrowid trick" of the source).  `faultAt` injects a storage failure at
the given executed-statement index, modelling a mid-transaction error. -/
def upsertLoop (user : String) (now : Nat) (faultAt : Option Nat) :
    Conn → Nat → Nat → List RawActivity → Except String (Conn × Nat)
  | c, _, inserted, [] => .ok (c, inserted)
  | c, idx, inserted, a :: rest =>
    match a.activityId with
    | none => upsertLoop user now faultAt c idx inserted rest
    | some gid =>
      if gid.truthy then
        if faultAt = some idx then .error "storage failure"
        else
          let c2 := execUpsertActivity user now c a gid
          let inserted2 := if c2.lastrowid ≠ 0 then inserted + 1 else inserted
          upsertLoop user now faultAt c2 (idx + 1) inserted2 rest
      else upsertLoop user now faultAt c idx inserted rest

/-- Record-keeping predicate of upsert_activities: a record is processed
exactly when its activityId is present and truthy. -/
def keepRaw (a : RawActivity) : Bool := (a.activityId.map IdVal.truthy).getD false

/-- Number of statements upsert_activities executes for a record list. -/
def keptCount (acts : List RawActivity) : Nat := (acts.filter keepRaw).length

/-- upsert_activities run inside its get_db transaction with an injected
fault: the visible database after the call, and the return value when the
body succeeded.  On an error the commit is skipped and closing the connection
rolls the transaction back, so the visible state is the pre-operation one. -/
def upsert_activities_run (db : DB) (user : String) (acts : List RawActivity)
    (now : Nat) (faultAt : Option Nat) : DB × Option Nat :=
  match upsertLoop user now faultAt ⟨db, 0⟩ 0 0 acts with
  | .ok (c, inserted) => (c.db, some inserted)
  | .error _ => (db, none)

/-- upsert_activities: insert or update activities for a user, returning the
count the source reports as newly inserted. -/
def upsert_activities (db : DB) (user : String) (acts : List RawActivity)
    (now : Nat) : DB × Nat :=
  match upsertLoop user now none ⟨db, 0⟩ 0 0 acts with
  | .ok (c, inserted) => (c.db, inserted)
  | .error _ => (db, 0)

/-- ORDER BY start_time DESC: larger start_time strings first, NULLs last
(SQLite sorts NULL first ascending, hence last descending); ties are in
unspecified order, realised here by insertion sort. -/
def startTimeDescLeB (a b : ActivityRow) : Bool :=
  match a.start_time, b.start_time with
  | none, none => true
  | none, some _ => false
  | some _, none => true
  | some x, some y => decide (y ≤ x)

/-- Propositional form of the descending start_time comparator. -/
def startTimeDescLe (a b : ActivityRow) : Prop := startTimeDescLeB a b = true

instance : DecidableRel startTimeDescLe := fun a b =>
  inferInstanceAs (Decidable (startTimeDescLeB a b = true))

/-- get_cached_activities: optionally filter to one user, order by start_time
descending, return at most `limit` rows. -/
def get_cached_activities (db : DB) (user : Option String) (limit : Nat) :
    List ActivityRow :=
  match user with
  | some u =>
    ((db.activities.filter (fun r => r.user_name == u)).insertionSort
      startTimeDescLe).take limit
  | none => (db.activities.insertionSort startTimeDescLe).take limit

/-- get_activity_count: COUNT(*) of cached activities of one user. -/
def get_activity_count (db : DB) (user : String) : Nat :=
  (db.activities.filter (fun r => r.user_name == user)).length

/-- Run a list of statements inside one get_db transaction against a working
copy; a fault at statement index `faultAt` skips the commit, so the caller
sees the original state and a failure flag. -/
def runTxGo (orig : DB) (faultAt : Option Nat) :
    DB → Nat → List (DB → DB) → DB × Bool
  | work, _, [] => (work, true)
  | work, idx, f :: rest =>
    if faultAt = some idx then (orig, false)
    else runTxGo orig faultAt (f work) (idx + 1) rest

/-- One get_db transaction over a statement list. -/
def runTx (db : DB) (stmts : List (DB → DB)) (faultAt : Option Nat) : DB × Bool :=
  runTxGo db faultAt db 0 stmts

/-- The three DELETE statements of delete_user, in source order. -/
def deleteStmts (user : String) : List (DB → DB) :=
  [fun db => { db with activities := db.activities.filter (fun r => r.user_name != user) },
   fun db => { db with weekly := db.weekly.filter (fun r => r.user_name != user) },
   fun db => { db with users := db.users.filter (fun r => r.name != user) }]

/-- delete_user: remove the user row and all cached activities and weekly
stats of that user, in one transaction. -/
def delete_user (db : DB) (user : String) : DB :=
  (runTx db (deleteStmts user) none).1

/-- delete_user run with a fault injected before statement `faultAt`
(0: activities, 1: weekly stats, 2: user row). -/
def delete_user_run (db : DB) (user : String) (faultAt : Option Nat) : DB × Bool :=
  runTx db (deleteStmts user) faultAt

/-- Conflict target of the weekly-stats upsert. -/
def weeklyMatches (user : String) (week : Int) (r : WeeklyRow) : Bool :=
  r.user_name == user && r.week_start == week

/-- DO UPDATE branch of upsert_weekly_stats on one row: every total is
overwritten and computed_at refreshed. -/
def weeklyUpd (user : String) (week : Int) (dist dur : Rat) (count : Nat)
    (cal : Int) (now : Nat) (r : WeeklyRow) : WeeklyRow :=
  if weeklyMatches user week r then
    ⟨r.user_name, r.week_start, dist, dur, count, cal, now⟩
  else r

/-- upsert_weekly_stats: INSERT ... ON CONFLICT(user_name, week_start)
DO UPDATE overwriting every total. -/
def upsert_weekly_stats (db : DB) (user : String) (week : Int) (dist dur : Rat)
    (count : Nat) (cal : Int) (now : Nat) : DB :=
  if db.weekly.any (weeklyMatches user week) then
    { db with weekly := db.weekly.map (weeklyUpd user week dist dur count cal now) }
  else
    { db with weekly := db.weekly ++ [⟨user, week, dist, dur, count, cal, now⟩] }

/-- ORDER BY week_start DESC comparator. -/
def weekDescLe (a b : WeeklyRow) : Prop := b.week_start ≤ a.week_start

instance : DecidableRel weekDescLe := fun a b =>
  inferInstanceAs (Decidable (b.week_start ≤ a.week_start))

/-- get_weekly_stats: newest `weeks` rollups, optionally for one user. -/
def get_weekly_stats (db : DB) (user : Option String) (weeks : Nat) :
    List WeeklyRow :=
  match user with
  | some u =>
    ((db.weekly.filter (fun r => r.user_name == u)).insertionSort weekDescLe).take weeks
  | none => (db.weekly.insertionSort weekDescLe).take weeks

/-- SELECT the user row by name. -/
def lookupUser (db : DB) (name : String) : Option UserRow :=
  db.users.find? (fun r => r.name == name)

/-- SELECT the weekly-stats row by (user_name, week_start). -/
def lookupWeekly (db : DB) (user : String) (week : Int) : Option WeeklyRow :=
  db.weekly.find? (fun r => weeklyMatches user week r)

/-! cache.py operations -/

/-- Configured historical start of the sync window. -/
def TRAINING_START_DATE : String := "2026-01-01"

/-- Start-time string used by the 2026 filter in sync_user:
`a.get("startTimeLocal") or a.get("startTimeGMT") or ""`. -/
def syncStartTime (a : RawActivity) : String :=
  (pyOrStr a.startTimeLocal a.startTimeGMT).getD ""

/-- Result dict of one user's sync: the success shape
{"user", "display_name", "fetched", "cached", "new"} or the error shape
{"user", "error"}. -/
inductive SyncResult where
  | ok (user display_name : String) (fetched cached new : Nat)
  | err (user message : String)
deriving DecidableEq, Repr

/-- sync_user.  The adapter boundary (resume, get_display_name and the
get_activities call) is modelled by the `fetched` argument: `.error` when any
of them raises, `.ok` with the raw records otherwise; no cache mutation has
happened at that point, so an error propagates with the store untouched.
`now` is datetime.now() at the watermark update. -/
def sync_user (db : DB) (user : String) (garmin_email : Option String)
    (displayName : String) (fetched : Except String (List RawActivity))
    (now : Nat) : Except String (DB × SyncResult) :=
  match fetched with
  | .error e => .error e
  | .ok activities =>
    let activities2026 := activities.filter (fun a => pyStartsWith (syncStartTime a) "2026")
    let p := upsert_activities db user activities2026 now
    let db2 := upsert_user p.1 user garmin_email (some displayName) (some now)
    .ok (db2, .ok user displayName activities2026.length (get_activity_count db2 user) p.2)

/-- Loop body of sync_all_users: every failure is caught, recorded as an
error entry, and the loop continues with the next user. -/
def syncAllGo (fetch : String → Except String (List RawActivity))
    (displayName : String → String) (now : Nat) :
    DB → List String → DB × List SyncResult
  | db, [] => (db, [])
  | db, name :: rest =>
    match sync_user db name none (displayName name) (fetch name) now with
    | .ok (db2, r) =>
      let p := syncAllGo fetch displayName now db2 rest
      (p.1, r :: p.2)
    | .error e =>
      let p := syncAllGo fetch displayName now db rest
      (p.1, .err name e :: p.2)

/-- sync_all_users: sync each named user in order, one result entry each. -/
def sync_all_users (db : DB) (names : List String)
    (fetch : String → Except String (List RawActivity))
    (displayName : String → String) (now : Nat) : DB × List SyncResult :=
  syncAllGo fetch displayName now db names

/-- In-memory per-week accumulator of compute_weekly_stats. -/
structure WeekStats where
  distance_m : Rat
  duration_s : Rat
  activities : Nat
  calories : Int
deriving DecidableEq, Repr

/-- Zero-initialised accumulator for a fresh week key. -/
def zeroStats : WeekStats := ⟨0, 0, 0, 0⟩

/-- Accumulate one activity row into a week's totals. -/
def addStats (s : WeekStats) (r : ActivityRow) : WeekStats :=
  ⟨s.distance_m + r.distance_m, s.duration_s + r.duration_s,
   s.activities + 1, s.calories + r.calories⟩

/-- Week bucket of a stored activity row: a falsy start_time (NULL or "") is
skipped, an unparseable one is skipped, otherwise the Monday of its week. -/
def weekKeyOf (r : ActivityRow) : Option Int :=
  match r.start_time with
  | none => none
  | some s => if s = "" then none else (parseIsoDay s).map mondayOf

/-- Add a row under its week key into the insertion-ordered association list
modelling the Python dict: existing keys update in place, new keys append. -/
def addToWeeks (k : Int) (r : ActivityRow) :
    List (Int × WeekStats) → List (Int × WeekStats)
  | [] => [(k, addStats zeroStats r)]
  | (k2, s) :: rest =>
    if k2 = k then (k2, addStats s r) :: rest
    else (k2, s) :: addToWeeks k r rest

/-- Grouping loop of compute_weekly_stats. -/
def groupWeeks : List (Int × WeekStats) → List ActivityRow → List (Int × WeekStats)
  | acc, [] => acc
  | acc, r :: rest =>
    match weekKeyOf r with
    | none => groupWeeks acc rest
    | some k => groupWeeks (addToWeeks k r acc) rest

/-- Store phase of compute_weekly_stats: one upsert per week key, in dict
iteration order. -/
def writeWeeks (user : String) (now : Nat) : DB → List (Int × WeekStats) → DB
  | db, [] => db
  | db, (k, s) :: rest =>
    writeWeeks user now
      (upsert_weekly_stats db user k s.distance_m s.duration_s s.activities s.calories now)
      rest

/-- compute_weekly_stats: read at most 10000 cached activities of the user,
group by ISO week (Monday start), store each week's totals. -/
def compute_weekly_stats (db : DB) (user : String) (now : Nat) : DB :=
  let acts := get_cached_activities db (some user) 10000
  writeWeeks user now db (groupWeeks [] acts)

/-! garmin.py: the adapter call boundary -/

/-- Parameter names accepted by lib.garmin.get_activities. -/
def getActivitiesParamNames : List String := ["client", "days"]

/-- A keyword argument passed at a call site. -/
structure FetchCall where
  keyword : String
  value : String
deriving DecidableEq, Repr

/-- The window request sync_user issues to the adapter, as a function of the
number of cached activities the store reports for the user: the call site
passes the single keyword argument start_date=TRAINING_START_DATE
unconditionally, consulting no cached count. -/
def syncFetchCall (_cachedCount : Nat) : FetchCall :=
  ⟨"start_date", TRAINING_START_DATE⟩

/-- sync_user with a storage fault injected into the merge step
(`mergeFault`: executed-statement index inside upsert_activities at which the
store raises).  Returns the visible database and, when the sync succeeded,
its result; a fetch error or a merge failure propagates before the watermark
update runs, so the visible database is the pre-sync one. -/
def sync_user_run (db : DB) (user : String) (garmin_email : Option String)
    (displayName : String) (fetched : Except String (List RawActivity))
    (now : Nat) (mergeFault : Option Nat) : DB × Option SyncResult :=
  match fetched with
  | .error _ => (db, none)
  | .ok activities =>
    let activities2026 := activities.filter (fun a => pyStartsWith (syncStartTime a) "2026")
    match upsert_activities_run db user activities2026 now mergeFault with
    | (dbv, none) => (dbv, none)
    | (db1, some newCount) =>
      let db2 := upsert_user db1 user garmin_email (some displayName) (some now)
      (db2, some (.ok user displayName activities2026.length (get_activity_count db2 user) newCount))

/-! Claim-side definitions (phrased from the specification's wording, to be
compared with the behaviour of the embedded source). -/

/-- Claim-side window membership: the row's start time is parseable and its
day falls within [w, w + 7). -/
def inWindowB (w : Int) (r : ActivityRow) : Bool :=
  match r.start_time with
  | none => false
  | some s =>
    match parseIsoDay s with
    | some d => decide (w ≤ d) && decide (d < w + 7)
    | none => false

/-- Claim-side selection: the cached activities of the user whose start time
falls within the week window. -/
def perWeek (db : DB) (user : String) (w : Int) : List ActivityRow :=
  db.activities.filter (fun r => r.user_name == user && inWindowB w r)

/-- Sum of distances over a row list. -/
def sumDist (l : List ActivityRow) : Rat := (l.map ActivityRow.distance_m).sum

/-- Sum of durations over a row list. -/
def sumDur (l : List ActivityRow) : Rat := (l.map ActivityRow.duration_s).sum

/-- Sum of calories over a row list. -/
def sumCal (l : List ActivityRow) : Int := (l.map ActivityRow.calories).sum

/-- Association-list lookup into the in-memory week map. -/
def lookupWeeksA (w : Int) : List (Int × WeekStats) → Option WeekStats
  | [] => none
  | (k, s) :: rest => if k = w then some s else lookupWeeksA w rest

/-- Keys of the in-memory week map, in insertion order. -/
def weekKeys (l : List (Int × WeekStats)) : List Int := l.map Prod.fst

/-- Totals contributed by a row list on top of an optional prior accumulator:
none means the week key was never touched. -/
def statsOf (F : List ActivityRow) (s0 : Option WeekStats) : Option WeekStats :=
  match s0 with
  | some s => some (F.foldl addStats s)
  | none =>
    match F with
    | [] => none
    | r :: rest => some (rest.foldl addStats (addStats zeroStats r))

/-- Projection of a sync result onto the user identity it reports. -/
def resultUser : SyncResult → String
  | .ok u _ _ _ _ => u
  | .err u _ => u

/-! Concrete inputs used by counterexamples and witnesses -/

/-- Raw record with integer id 1 and distance 5. -/
def rawA : RawActivity := { activityId := some (.intId 1), distance := some 5 }

/-- Raw record with integer id 2 and distance 7. -/
def rawB : RawActivity := { activityId := some (.intId 2), distance := some 7 }

/-- Database holding only rawA cached for user "anto". -/
def c1db : DB := (upsert_activities emptyDB "anto" [rawA] 0).1

/-- Fetched record carrying an id but no start timestamp at all. -/
def c6raw : RawActivity := { activityId := some (.intId 200), distance := some 4 }

/-- Fetched record with a 2026-prefixed start timestamp that does not parse. -/
def c6raw2 : RawActivity :=
  { activityId := some (.intId 300), startTimeLocal := some "2026-99-99 00:00:00" }

/-- Day number of Monday 2026-01-05. -/
def mondayW : Int := 739926

/-- One cached-activity row of user "anto" on Tuesday 2026-01-06, with
garmin id `i`. -/
def mkAct (i : Nat) : ActivityRow where
  id := i + 1
  user_name := "anto"
  garmin_id := .intId (i : Int)
  activity_type := "running"
  distance_m := 1
  elevation_gain_m := 0
  duration_s := 2
  calories := 3
  start_time := some "2026-01-06 10:00:00"
  activity_json := {}
  fetched_at := 0

/-- Rows mkAct s, mkAct (s+1), ..., n rows in all. -/
def bigActsAux : Nat → Nat → List ActivityRow
  | 0, _ => []
  | n + 1, s => mkAct s :: bigActsAux n (s + 1)

/-- 10001 cached activities of one user, all in the same week. -/
def bigActs : List ActivityRow := bigActsAux 10001 0

/-- A store with 10001 cached activities of one user, all in the same week:
one more than the 10000-row ceiling compute_weekly_stats reads. -/
def bigDB : DB := ⟨[], bigActs, 10002, []⟩

/-- The §8 example records: three activities of one ISO week. -/
def r101 : RawActivity :=
  { activityId := some (.intId 101), distance := some 5000
    startTimeLocal := some "2026-01-06 08:00:00" }

/-- Second example record. -/
def r102 : RawActivity :=
  { activityId := some (.intId 102), distance := some 0
    startTimeLocal := some "2026-01-06 09:00:00" }

/-- Third example record. -/
def r103 : RawActivity :=
  { activityId := some (.intId 103), distance := some 8000, calories := some 2
    startTimeLocal := some "2026-01-06 10:00:00" }

/-- One-user store with a known watermark, used by witnesses. -/
def c4db : DB := ⟨[⟨"pat", none, some "P", some 1⟩], [], 1, []⟩

/-- The same store after a successful empty sync at time 2. -/
def c4db2 : DB := ⟨[⟨"pat", none, some "P", some 2⟩], [], 1, []⟩

/-- A small synced store used by several witnesses. -/
def patDB : DB :=
  match sync_user emptyDB "pat" (some "pat@example.com") "Pat" (.ok [r101, r102, r103]) 5 with
  | .ok p => p.1
  | .error _ => emptyDB

/-! Shared lemmas about the upsert loop -/

theorem upsertLoop_filter (user : String) (now : Nat) (acts : List RawActivity) :
    ∀ (c : Conn) (idx ins : Nat),
      upsertLoop user now none c idx ins acts =
        upsertLoop user now none c idx ins (acts.filter keepRaw) := by
  induction acts with
  | nil => intro c idx ins; rfl
  | cons a rest ih =>
    intro c idx ins
    cases ha : a.activityId with
    | none =>
      have hk : keepRaw a = false := by simp [keepRaw, ha]
      simp only [upsertLoop, ha, List.filter_cons, hk, Bool.false_eq_true, if_false]
      exact ih c idx ins
    | some gid =>
      by_cases ht : gid.truthy
      · have hk : keepRaw a = true := by simp [keepRaw, ha, ht]
        simp only [upsertLoop, ha, List.filter_cons, hk, if_true, ht, reduceCtorEq, if_false]
        exact ih _ _ _
      · have hk : keepRaw a = false := by simp [keepRaw, ha, ht]
        simp only [upsertLoop, ha, List.filter_cons, hk, Bool.false_eq_true, if_false,
          ht]
        exact ih c idx ins

theorem execUpsertActivity_users (user : String) (now : Nat) (c : Conn)
    (a : RawActivity) (gid : IdVal) :
    (execUpsertActivity user now c a gid).db.users = c.db.users := by
  unfold execUpsertActivity; split <;> rfl

theorem execUpsertActivity_weekly (user : String) (now : Nat) (c : Conn)
    (a : RawActivity) (gid : IdVal) :
    (execUpsertActivity user now c a gid).db.weekly = c.db.weekly := by
  unfold execUpsertActivity; split <;> rfl

theorem upsertLoop_none_ok (user : String) (now : Nat) (acts : List RawActivity) :
    ∀ (c : Conn) (idx ins : Nat), ∃ p,
      upsertLoop user now none c idx ins acts = .ok p ∧
      p.1.db.users = c.db.users ∧ p.1.db.weekly = c.db.weekly := by
  induction acts with
  | nil => intro c idx ins; exact ⟨(c, ins), rfl, rfl, rfl⟩
  | cons a rest ih =>
    intro c idx ins
    cases ha : a.activityId with
    | none =>
      obtain ⟨p, hp, hu, hw⟩ := ih c idx ins
      exact ⟨p, by simpa [upsertLoop, ha] using hp, hu, hw⟩
    | some gid =>
      by_cases ht : gid.truthy
      · obtain ⟨p, hp, hu, hw⟩ := ih (execUpsertActivity user now c a gid) (idx + 1)
          (if (execUpsertActivity user now c a gid).lastrowid ≠ 0 then ins + 1 else ins)
        refine ⟨p, ?_, ?_, ?_⟩
        · simpa [upsertLoop, ha, ht] using hp
        · rw [hu, execUpsertActivity_users]
        · rw [hw, execUpsertActivity_weekly]
      · obtain ⟨p, hp, hu, hw⟩ := ih c idx ins
        exact ⟨p, by simpa [upsertLoop, ha, ht] using hp, hu, hw⟩

theorem upsert_activities_users (db : DB) (u : String) (acts : List RawActivity)
    (now : Nat) : (upsert_activities db u acts now).1.users = db.users := by
  obtain ⟨p, hp, hu, _⟩ := upsertLoop_none_ok u now acts ⟨db, 0⟩ 0 0
  unfold upsert_activities
  rw [hp]
  exact hu

theorem upsert_activities_run_none (db : DB) (u : String) (acts : List RawActivity)
    (now : Nat) :
    upsert_activities_run db u acts now none =
      ((upsert_activities db u acts now).1, some (upsert_activities db u acts now).2) := by
  obtain ⟨p, hp, _, _⟩ := upsertLoop_none_ok u now acts ⟨db, 0⟩ 0 0
  unfold upsert_activities_run upsert_activities
  rw [hp]

theorem upsertLoop_fault (user : String) (now : Nat) (acts : List RawActivity) :
    ∀ (c : Conn) (idx ins j : Nat), j < keptCount acts →
      upsertLoop user now (some (idx + j)) c idx ins acts = .error "storage failure" := by
  induction acts with
  | nil => intro c idx ins j hj; simp [keptCount] at hj
  | cons a rest ih =>
    intro c idx ins j hj
    cases ha : a.activityId with
    | none =>
      have hk : keepRaw a = false := by simp [keepRaw, ha]
      have hj2 : j < keptCount rest := by
        simpa [keptCount, List.filter_cons, hk] using hj
      simpa [upsertLoop, ha] using ih c idx ins j hj2
    | some gid =>
      by_cases ht : gid.truthy
      · have hk : keepRaw a = true := by simp [keepRaw, ha, ht]
        cases j with
        | zero => simp [upsertLoop, ha, ht]
        | succ j2 =>
          have hj2 : j2 < keptCount rest := by
            have : keptCount (a :: rest) = keptCount rest + 1 := by
              simp [keptCount, List.filter_cons, hk]
            omega
          have hrec := ih (execUpsertActivity user now c a gid) (idx + 1)
            (if (execUpsertActivity user now c a gid).lastrowid ≠ 0 then ins + 1 else ins)
            j2 hj2
          have harith : idx + 1 + j2 = idx + (j2 + 1) := by omega
          rw [harith] at hrec
          have hne : ¬((some (idx + (j2 + 1)) : Option Nat) = some idx) := by
            simp only [Option.some.injEq]
            omega
          simpa [upsertLoop, ha, ht, hne] using hrec
      · have hk : keepRaw a = false := by simp [keepRaw, ha, ht]
        have hj2 : j < keptCount rest := by
          simpa [keptCount, List.filter_cons, hk] using hj
        simpa [upsertLoop, ha, ht] using ih c idx ins j hj2

theorem find?_map_userUpd (u : String) (em dn : Option String) (ls : Option Nat) :
    ∀ l : List UserRow, l.any (fun r => r.name == u) = true →
      (l.map (userUpd u em dn ls)).find? (fun r => r.name == u) =
        some (match l.find? (fun r => r.name == u) with
          | some r => ⟨r.name, em, dn,
              match ls with | some t => some t | none => r.last_synced_at⟩
          | none => ⟨u, em, dn, ls⟩)
  | [], h => by simp at h
  | r :: rest, h => by
    by_cases hr : (r.name == u) = true
    · have h1 : userUpd u em dn ls r =
          ⟨r.name, em, dn, match ls with | some t => some t | none => r.last_synced_at⟩ := by
        unfold userUpd
        rw [if_pos hr]
      have h2 : ((userUpd u em dn ls r).name == u) = true := by rw [h1]; exact hr
      rw [List.map_cons,
        @List.find?_cons_of_pos _ (fun r => r.name == u) (userUpd u em dn ls r)
          (rest.map (userUpd u em dn ls)) h2,
        @List.find?_cons_of_pos _ (fun r => r.name == u) r rest hr, h1]
    · have h1 : userUpd u em dn ls r = r := by
        unfold userUpd
        rw [if_neg hr]
      have hrest : rest.any (fun r => r.name == u) = true := by
        rw [List.any_cons, Bool.or_eq_true] at h
        rcases h with h | h
        · exact absurd h hr
        · exact h
      rw [List.map_cons, h1,
        @List.find?_cons_of_neg _ (fun r => r.name == u) r (rest.map (userUpd u em dn ls)) hr,
        @List.find?_cons_of_neg _ (fun r => r.name == u) r rest hr]
      exact find?_map_userUpd u em dn ls rest hrest

theorem lookupUser_upsert_user (db : DB) (u : String) (em dn : Option String)
    (ls : Option Nat) :
    lookupUser (upsert_user db u em dn ls) u =
      some (match lookupUser db u with
        | some r => ⟨r.name, em, dn,
            match ls with | some t => some t | none => r.last_synced_at⟩
        | none => ⟨u, em, dn, ls⟩) := by
  unfold upsert_user lookupUser
  by_cases hany : db.users.any (fun r => r.name == u) = true
  · rw [if_pos hany]
    exact find?_map_userUpd u em dn ls db.users hany
  · rw [if_neg hany]
    have hnone : db.users.find? (fun r => r.name == u) = none := by
      rw [List.find?_eq_none]
      intro x hx hc
      exact hany (List.any_eq_true.mpr ⟨x, hx, hc⟩)
    show (db.users ++ [⟨u, em, dn, ls⟩] : List UserRow).find? (fun r => r.name == u) = _
    rw [List.find?_append, hnone]
    simp [List.find?_cons]

theorem watermark_after_upsert (db : DB) (u : String) (em dn : Option String)
    (t : Nat) :
    (lookupUser (upsert_user db u em dn (some t)) u).map UserRow.last_synced_at =
      some (some t) := by
  rw [lookupUser_upsert_user]
  cases lookupUser db u <;> rfl

theorem sync_ok_db (db : DB) (u : String) (em : Option String) (dn : String)
    (acts : List RawActivity) (t : Nat) (db1 : DB) (res1 : SyncResult)
    (h : sync_user db u em dn (.ok acts) t = .ok (db1, res1)) :
    db1 = upsert_user
      (upsert_activities db u
        (acts.filter (fun a => pyStartsWith (syncStartTime a) "2026")) t).1
      u em (some dn) (some t) := by
  simp only [sync_user] at h
  exact (congrArg Prod.fst (Except.ok.inj h)).symm

/-- C3: the fetch window sync_user requests is the same whether the store
reports zero or one cached activity, and the keyword it passes (start_date)
is not among the parameters of get_activities, so the call raises TypeError:
the backfill/incremental window selection the claim describes is absent from
the code. -/
theorem c3_window_constant :
    syncFetchCall 0 = syncFetchCall 1 ∧
    (syncFetchCall 0).keyword ∉ getActivitiesParamNames := by
  decide

/-- C1: failing input for the new-count contract.  With activity 1 already
cached, upserting [new record 2, existing record 1] returns 2 although only
one row was truly inserted: the update of record 1 is counted because the
connection-level lastrowid is still set from the insert of record 2.  (An
identical re-upsert of record 1 alone does return 0.) -/
theorem c1_count_overcount :
    (upsert_activities c1db "anto" [rawB, rawA] 1).2 = 2 ∧
    (upsert_activities c1db "anto" [rawB, rawA] 1).1.activities.length =
      c1db.activities.length + 1 ∧
    (upsert_activities c1db "anto" [rawA] 2).2 = 0 := by
  decide

/-- C9: upsert_activities drops every record whose remote identifier is
absent or falsy (the integer 0, the empty string): the call behaves exactly
as if those records were removed from the input, and a single falsy-id record
leaves the store unchanged and is not counted. -/
theorem c9_falsy_id_skipped :
    (∀ (db : DB) (u : String) (acts : List RawActivity) (now : Nat),
      upsert_activities db u acts now = upsert_activities db u (acts.filter keepRaw) now) ∧
    (∀ (db : DB) (u : String) (a : RawActivity) (gid : IdVal) (now : Nat),
      a.activityId = some gid → gid.truthy = false →
      upsert_activities db u [a] now = (db, 0)) := by
  constructor
  · intro db u acts now
    unfold upsert_activities
    rw [upsertLoop_filter]
  · intro db u a gid now ha ht
    have : List.filter keepRaw [a] = [] := by
      simp [List.filter_cons, keepRaw, ha, ht]
    unfold upsert_activities
    rw [upsertLoop_filter, this]
    rfl

/-- C9 witness: the integer id 0 is carried but falsy, and the record is
neither stored nor counted. -/
theorem c9_falsy_id_skipped_witness :
    upsert_activities emptyDB "anto" [{ activityId := some (.intId 0) }] 0 = (emptyDB, 0) :=
  c9_falsy_id_skipped.2 emptyDB "anto" { activityId := some (.intId 0) } (.intId 0) 0 rfl rfl

/-- C5: batch atomicity.  Every multi-row mutation runs inside one get_db
transaction: a storage failure at any executed statement of an activities
upsert or of a user deletion leaves the visible store in exactly its
pre-operation state (never a partially-applied subset), and the fault-free
runs coincide with the plain operations. -/
theorem c5_batch_atomic :
    (∀ (db : DB) (u : String) (acts : List RawActivity) (now k : Nat),
      k < keptCount acts →
      upsert_activities_run db u acts now (some k) = (db, none)) ∧
    (∀ (db : DB) (u : String) (acts : List RawActivity) (now : Nat),
      upsert_activities_run db u acts now none =
        ((upsert_activities db u acts now).1, some (upsert_activities db u acts now).2)) ∧
    (∀ (db : DB) (u : String) (k : Nat), k < 3 →
      delete_user_run db u (some k) = (db, false)) ∧
    (∀ (db : DB) (u : String), delete_user_run db u none = (delete_user db u, true)) := by
  refine ⟨?_, upsert_activities_run_none, ?_, fun db u => rfl⟩
  · intro db u acts now k hk
    have h := upsertLoop_fault u now acts ⟨db, 0⟩ 0 0 k hk
    simp only [Nat.zero_add] at h
    unfold upsert_activities_run
    rw [h]
  · intro db u k hk
    interval_cases k <;> rfl

/-- C5 witness: a fault at the single statement of a one-record upsert, and a
fault at the second delete statement, each leave the concrete store
unchanged. -/
theorem c5_batch_atomic_witness :
    upsert_activities_run patDB "pat" [r101] 7 (some 0) = (patDB, none) ∧
    delete_user_run patDB "pat" (some 1) = (patDB, false) :=
  ⟨c5_batch_atomic.1 patDB "pat" [r101] 7 0 (by decide),
   c5_batch_atomic.2.2.1 patDB "pat" 1 (by decide)⟩

/-- C7: cascade delete.  delete_user removes the user row and every cached
activity and weekly rollup of that user inside one transaction (a failure at
any of its three statements leaves the pre-operation state), and afterwards
the activity and rollup queries for that user return empty results and the
user row is gone. -/
theorem c7_cascade_delete (db : DB) (u : String) :
    (∀ limit, get_cached_activities (delete_user db u) (some u) limit = []) ∧
    (∀ n, get_weekly_stats (delete_user db u) (some u) n = []) ∧
    lookupUser (delete_user db u) u = none ∧
    (∀ k, k < 3 → delete_user_run db u (some k) = (db, false)) := by
  have hd : delete_user db u =
      ⟨db.users.filter (fun r => r.name != u),
       db.activities.filter (fun r => r.user_name != u),
       db.nextActivityId,
       db.weekly.filter (fun r => r.user_name != u)⟩ := rfl
  have h1 : (db.activities.filter (fun r => r.user_name != u)).filter
      (fun r => r.user_name == u) = [] := by
    rw [List.filter_eq_nil_iff]
    intro a ha
    have h2 := (List.mem_filter.mp ha).2
    simp only [bne_iff_ne] at h2
    simp [h2]
  have hw : (db.weekly.filter (fun r => r.user_name != u)).filter
      (fun r => r.user_name == u) = [] := by
    rw [List.filter_eq_nil_iff]
    intro a ha
    have h2 := (List.mem_filter.mp ha).2
    simp only [bne_iff_ne] at h2
    simp [h2]
  refine ⟨?_, ?_, ?_, ?_⟩
  · intro limit
    rw [hd]
    simp only [get_cached_activities]
    rw [h1]
    simp
  · intro n
    rw [hd]
    simp only [get_weekly_stats]
    rw [hw]
    simp
  · rw [hd]
    simp only [lookupUser]
    rw [List.find?_eq_none]
    intro x hx hc
    have h2 := (List.mem_filter.mp hx).2
    simp only [bne_iff_ne] at h2
    exact h2 (by simpa using hc)
  · intro k hk
    interval_cases k <;> rfl

/-- C7 witness: deleting the concrete user empties both queries and removes
the user row. -/
theorem c7_cascade_delete_witness :
    get_cached_activities (delete_user patDB "pat") (some "pat") 100 = [] ∧
    get_weekly_stats (delete_user patDB "pat") (some "pat") 8 = [] ∧
    lookupUser (delete_user patDB "pat") "pat" = none :=
  ⟨(c7_cascade_delete patDB "pat").1 100,
   (c7_cascade_delete patDB "pat").2.1 8,
   (c7_cascade_delete patDB "pat").2.2.1⟩

/-- C8: fail one, continue all.  The batch sync returns exactly one result
entry per input user, paired positionally in order (Forall₂): each entry
reports its user's name, and when a user's fetch raises, that user's entry is
the error record while every later user still gets its own entry. -/
theorem c8_fail_one_continue_all (db : DB) (names : List String)
    (fetch : String → Except String (List RawActivity))
    (displayName : String → String) (now : Nat) :
    List.Forall₂ (fun name r => resultUser r = name ∧
        ∀ e, fetch name = .error e → r = .err name e)
      names (sync_all_users db names fetch displayName now).2 := by
  unfold sync_all_users
  induction names generalizing db with
  | nil => exact .nil
  | cons n rest ih =>
    cases hf : fetch n with
    | error e =>
      have hs : sync_user db n none (displayName n) (fetch n) now = .error e := by
        rw [hf]
        rfl
      simp only [syncAllGo, hs]
      refine .cons ⟨rfl, ?_⟩ (ih db)
      intro e2 he2
      rw [hf] at he2
      injection he2 with h
      rw [h]
    | ok acts =>
      simp only [syncAllGo, hf, sync_user]
      exact .cons ⟨rfl, fun e2 he2 => by rw [hf] at he2; exact absurd he2 (by simp)⟩ (ih _)

/-- C8 witness: with the first user's fetch failing and the second's
succeeding, both entries are present, in order, and the first is the error
record. -/
theorem c8_fail_one_continue_all_witness :
    List.Forall₂ (fun name r => resultUser r = name ∧
        ∀ e, (fun n => if n = "bad" then Except.error "boom" else .ok ([] : List RawActivity)) name
          = .error e → r = .err name e)
      ["bad", "good"]
      (sync_all_users emptyDB ["bad", "good"]
        (fun n => if n = "bad" then .error "boom" else .ok [])
        (fun _ => "D") 3).2 :=
  c8_fail_one_continue_all emptyDB ["bad", "good"]
    (fun n => if n = "bad" then .error "boom" else .ok []) (fun _ => "D") 3

/-- C10: a successful sync called without an email (as the multi-user batch
loop always calls it) overwrites the stored garmin_email with null: sync_user
hands its optional email argument straight to upsert_user, which overwrites
the email field unconditionally, so the user row's email becomes none; and
the single-user batch loop produces exactly that database. -/
theorem c10_sync_erases_email (db : DB) (u : String) (r : UserRow) (e dn : String)
    (acts : List RawActivity) (now : Nat) (db2 : DB) (res : SyncResult)
    (_hu : lookupUser db u = some r) (_he : r.garmin_email = some e)
    (hs : sync_user db u none dn (.ok acts) now = .ok (db2, res)) :
    (lookupUser db2 u).map UserRow.garmin_email = some none ∧
    (sync_all_users db [u] (fun _ => .ok acts) (fun _ => dn) now).1 = db2 := by
  constructor
  · have hdb2 := sync_ok_db db u none dn acts now db2 res hs
    subst hdb2
    rw [lookupUser_upsert_user]
    cases lookupUser (upsert_activities db u
      (acts.filter (fun a => pyStartsWith (syncStartTime a) "2026")) now).1 u <;> rfl
  · simp only [sync_all_users, syncAllGo]
    rw [hs]

/-- C10 witness: the stored email "old" is erased to none by an empty
successful sync at time 7. -/
theorem c10_sync_erases_email_witness :
    (lookupUser ⟨[⟨"anto", none, some "A", some 7⟩], [], 1, []⟩ "anto").map
      UserRow.garmin_email = some none :=
  (c10_sync_erases_email ⟨[⟨"anto", some "old", some "B", none⟩], [], 1, []⟩ "anto"
    ⟨"anto", some "old", some "B", none⟩ "old" "A" [] 7
    ⟨[⟨"anto", none, some "A", some 7⟩], [], 1, []⟩ (.ok "anto" "A" 0 0 0)
    rfl rfl rfl).1

theorem upsert_user_activities (db : DB) (n : String) (em dn : Option String)
    (ls : Option Nat) : (upsert_user db n em dn ls).activities = db.activities := by
  unfold upsert_user
  split <;> rfl

theorem groupWeeks_acc_of_none : ∀ (l : List ActivityRow) (acc : List (Int × WeekStats)),
    (∀ r ∈ l, weekKeyOf r = none) → groupWeeks acc l = acc
  | [], _, _ => rfl
  | r :: rest, acc, h => by
    have hr : weekKeyOf r = none := h r (List.mem_cons_self r rest)
    simp only [groupWeeks, hr]
    exact groupWeeks_acc_of_none rest acc (fun x hx => h x (List.mem_cons_of_mem r hx))

/-- C6 counterexample: a fetched record carrying a remote id but no start
timestamp is dropped by sync_user's 2026 filter before it ever reaches
storage: the sync succeeds but stores nothing (fetched=0, cached=0),
refuting the claim that such a record is still stored with a null start
time. -/
theorem c6_missing_timestamp_dropped :
    sync_user emptyDB "anto" none "Anto" (.ok [c6raw]) 3 =
      .ok (⟨[⟨"anto", none, some "Anto", some 3⟩], [], 1, []⟩,
           .ok "anto" "Anto" 0 0 0) := by
  rfl

/-- C6 amended: a fetched record whose start timestamp is present and begins
with "2026" but cannot be parsed is still stored, with the raw string as its
start time, and is excluded from weekly bucketing (its week key is none); a
record whose timestamp is missing or empty, or does not begin with "2026",
is dropped by the sync filter (see the counterexample); and recomputing
weekly stats over a store whose activities for the user are all unbucketable
leaves the weekly table unchanged. -/
theorem c6_unparseable_stored_excluded (db : DB) (u dn : String) (a : RawActivity)
    (s : String) (gid : IdVal) (now : Nat)
    (hsv : pyOrStr a.startTimeLocal a.startTimeGMT = some s)
    (h26 : pyStartsWith s "2026" = true)
    (hpar : parseIsoDay s = none)
    (hid : a.activityId = some gid) (htr : gid.truthy = true) :
    (∀ db2 res, sync_user db u none dn (.ok [a]) now = .ok (db2, res) →
      ∃ r ∈ db2.activities, r.user_name = u ∧ r.garmin_id = gid ∧
        r.start_time = some s ∧ weekKeyOf r = none) ∧
    (∀ dbx, (∀ r ∈ dbx.activities, r.user_name = u → weekKeyOf r = none) →
      compute_weekly_stats dbx u now = dbx) := by
  have hne : s ≠ "" := by
    intro h
    rw [h] at h26
    exact absurd h26 (by decide)
  have hweek : ∀ r : ActivityRow, r.start_time = some s → weekKeyOf r = none := by
    intro r hst
    unfold weekKeyOf
    rw [hst]
    show (if s = "" then none else Option.map mondayOf (parseIsoDay s)) = none
    rw [if_neg hne, hpar]
    rfl
  constructor
  · intro db2 res hs
    have hfil : List.filter (fun a => pyStartsWith (syncStartTime a) "2026") [a] = [a] := by
      simp [List.filter_cons, syncStartTime, hsv, h26]
    have hdb2 := sync_ok_db db u none dn [a] now db2 res hs
    rw [hfil] at hdb2
    subst hdb2
    rw [upsert_user_activities]
    unfold upsert_activities upsertLoop
    rw [hid]
    simp only [htr, if_true, reduceCtorEq, if_false]
    unfold execUpsertActivity
    by_cases hc : db.activities.any (activityMatches u gid) = true
    · rw [if_pos hc]
      obtain ⟨r0, hr0, hm0⟩ := List.any_eq_true.mp hc
      refine ⟨updateRow now a r0, ?_, ?_, ?_, ?_, ?_⟩
      · exact List.mem_map.mpr ⟨r0, hr0, by rw [if_pos hm0]⟩
      · have := (Bool.and_eq_true _ _).mp hm0
        exact (by simpa using this.1 : r0.user_name = u)
      · have := (Bool.and_eq_true _ _).mp hm0
        exact (by simpa using this.2 : r0.garmin_id = gid)
      · show pyOrStr a.startTimeLocal a.startTimeGMT = some s
        exact hsv
      · exact hweek _ hsv
    · rw [if_neg hc]
      refine ⟨rowOfRaw db.nextActivityId u now a gid, ?_, rfl, rfl, hsv, hweek _ hsv⟩
      exact List.mem_append.mpr (Or.inr (List.mem_singleton.mpr rfl))
  · intro dbx hall
    unfold compute_weekly_stats
    have hnone : ∀ r ∈ get_cached_activities dbx (some u) 10000, weekKeyOf r = none := by
      intro r hr
      have hmem : r ∈ (dbx.activities.filter (fun r => r.user_name == u)).insertionSort
          startTimeDescLe := List.take_subset _ _ hr
      have hmem2 : r ∈ dbx.activities.filter (fun r => r.user_name == u) :=
        (List.perm_insertionSort startTimeDescLe _).subset hmem
      have := List.mem_filter.mp hmem2
      exact hall r this.1 (by simpa using this.2)
    show writeWeeks u now dbx (groupWeeks [] (get_cached_activities dbx (some u) 10000)) = dbx
    rw [groupWeeks_acc_of_none _ _ hnone]
    rfl

/-- C6 amended witness: the record with unparseable start time
"2026-99-99 00:00:00" is stored with that raw string and excluded from
bucketing. -/
theorem c6_unparseable_stored_excluded_witness :
    ∃ r ∈ (⟨[⟨"anto", none, some "A", some 4⟩],
        [⟨1, "anto", .intId 300, "unknown", 0, 0, 0, 0,
          some "2026-99-99 00:00:00", c6raw2, 4⟩], 2, []⟩ : DB).activities,
      r.user_name = "anto" ∧ r.garmin_id = .intId 300 ∧
      r.start_time = some "2026-99-99 00:00:00" ∧ weekKeyOf r = none :=
  (c6_unparseable_stored_excluded emptyDB "anto" "A" c6raw2
    "2026-99-99 00:00:00" (.intId 300) 4 rfl (by decide) (by decide) rfl (by decide)).1
    ⟨[⟨"anto", none, some "A", some 4⟩],
      [⟨1, "anto", .intId 300, "unknown", 0, 0, 0, 0,
        some "2026-99-99 00:00:00", c6raw2, 4⟩], 2, []⟩
    (.ok "anto" "A" 1 1 1) rfl

/-- C4: watermark safety.  After each successful sync the watermark equals
that sync's clock time, so under a monotone clock (t1 ≤ t2) it never
decreases across successive successful syncs; upsert_user with a null
last_synced_at keeps the stored value; a failed fetch leaves the entire
store, watermark included, untouched; and a storage failure during the merge
step aborts the sync before the watermark update runs, so the watermark
advances only after the merge of the same sync has succeeded. -/
theorem c4_watermark (db : DB) (u : String) (em1 em2 : Option String)
    (dn1 dn2 : String) (acts1 acts2 : List RawActivity) (t1 t2 : Nat)
    (ht : t1 ≤ t2) (r : UserRow) (hr : lookupUser db u = some r) :
    (∀ db1 res1, sync_user db u em1 dn1 (.ok acts1) t1 = .ok (db1, res1) →
      (lookupUser db1 u).map UserRow.last_synced_at = some (some t1) ∧
      ∀ db2 res2, sync_user db1 u em2 dn2 (.ok acts2) t2 = .ok (db2, res2) →
        (lookupUser db2 u).map UserRow.last_synced_at = some (some t2) ∧ t1 ≤ t2) ∧
    (∀ em dn, (lookupUser (upsert_user db u em dn none) u).map UserRow.last_synced_at
        = some r.last_synced_at) ∧
    (∀ e mf, sync_user_run db u em1 dn1 (.error e) t1 mf = (db, none)) ∧
    (∀ k, k < keptCount (acts1.filter (fun a => pyStartsWith (syncStartTime a) "2026")) →
      sync_user_run db u em1 dn1 (.ok acts1) t1 (some k) = (db, none)) := by
  refine ⟨?_, ?_, fun e mf => rfl, ?_⟩
  · intro db1 res1 h1
    have hd1 := sync_ok_db _ _ _ _ _ _ _ _ h1
    subst hd1
    refine ⟨watermark_after_upsert _ _ _ _ _, ?_⟩
    intro db2 res2 h2
    have hd2 := sync_ok_db _ _ _ _ _ _ _ _ h2
    subst hd2
    exact ⟨watermark_after_upsert _ _ _ _ _, ht⟩
  · intro em dn
    rw [lookupUser_upsert_user, hr]
    rfl
  · intro k hk
    have h := upsertLoop_fault u t1
      (acts1.filter (fun a => pyStartsWith (syncStartTime a) "2026")) ⟨db, 0⟩ 0 0 k hk
    simp only [Nat.zero_add] at h
    have h2 : upsert_activities_run db u
        (acts1.filter (fun a => pyStartsWith (syncStartTime a) "2026")) t1 (some k) =
        (db, none) := by
      unfold upsert_activities_run
      rw [h]
    simp only [sync_user_run]
    rw [h2]

/-- C4 witness: a concrete user with watermark 1 synced successfully at time 2
keeps watermark 2; a null upsert_user preserves it; a failed fetch changes
nothing. -/
theorem c4_watermark_witness :
    (lookupUser c4db2 "pat").map UserRow.last_synced_at = some (some 2) ∧
    (lookupUser (upsert_user c4db "pat" none none none) "pat").map
      UserRow.last_synced_at = some (some 1) ∧
    sync_user_run c4db "pat" none "P" (.error "net down") 2 none = (c4db, none) := by
  have h := c4_watermark c4db "pat" none none "P" "P" [] [] 2 3 (by decide)
    ⟨"pat", none, some "P", some 1⟩ rfl
  exact ⟨((h.1 c4db2 (.ok "pat" "P" 0 0 0)) rfl).1, h.2.1 none none, h.2.2.1 "net down" none⟩

/-! Lemmas on weekly grouping, used for the rollup claims -/

theorem lookupWeeksA_addToWeeks (k : Int) (r : ActivityRow) :
    ∀ (acc : List (Int × WeekStats)) (w : Int),
      lookupWeeksA w (addToWeeks k r acc) =
        if w = k then some (addStats ((lookupWeeksA k acc).getD zeroStats) r)
        else lookupWeeksA w acc
  | [], w => by
    by_cases hw : w = k
    · subst hw
      simp [addToWeeks, lookupWeeksA]
    · have hw2 : ¬(k = w) := fun h => hw h.symm
      simp [addToWeeks, lookupWeeksA, hw, hw2]
  | (k2, s) :: rest, w => by
    have hrec := lookupWeeksA_addToWeeks k r rest w
    by_cases h2 : k2 = k
    · subst h2
      by_cases hw : w = k2
      · subst hw
        simp [addToWeeks, lookupWeeksA]
      · have hw2 : ¬(k2 = w) := fun h => hw h.symm
        simp [addToWeeks, lookupWeeksA, hw, hw2]
    · by_cases hw : w = k2
      · subst hw
        have hwk : ¬(w = k) := h2
        simp [addToWeeks, lookupWeeksA, h2, hwk]
      · have hw2 : ¬(k2 = w) := fun h => hw h.symm
        by_cases hk : w = k
        · subst hk
          simp [addToWeeks, lookupWeeksA, h2, hw2, hrec]
        · simp [addToWeeks, lookupWeeksA, h2, hw2, hk, hrec]

theorem lookupWeeksA_groupWeeks :
    ∀ (l : List ActivityRow) (acc : List (Int × WeekStats)) (w : Int),
      lookupWeeksA w (groupWeeks acc l) =
        statsOf (l.filter (fun r => weekKeyOf r == some w)) (lookupWeeksA w acc)
  | [], acc, w => by
    cases h : lookupWeeksA w acc <;> simp [groupWeeks, statsOf, h]
  | r :: rest, acc, w => by
    cases hk : weekKeyOf r with
    | none =>
      have hb : ((none : Option Int) == some w) = false := rfl
      simp only [groupWeeks, hk, List.filter_cons, hb, Bool.false_eq_true, if_false]
      exact lookupWeeksA_groupWeeks rest acc w
    | some k =>
      by_cases hw : k = w
      · subst hw
        have hb : ((some k : Option Int) == some k) = true := by simp
        simp only [groupWeeks, hk, List.filter_cons, hb, if_true]
        rw [lookupWeeksA_groupWeeks rest (addToWeeks k r acc) k,
          lookupWeeksA_addToWeeks, if_pos rfl]
        cases hacc : lookupWeeksA k acc with
        | some s => simp [statsOf, Option.getD_some]
        | none => simp [statsOf, Option.getD_none]
      · have hb : ((some k : Option Int) == some w) = false := by simpa using hw
        simp only [groupWeeks, hk, List.filter_cons, hb, Bool.false_eq_true, if_false]
        rw [lookupWeeksA_groupWeeks rest (addToWeeks k r acc) w,
          lookupWeeksA_addToWeeks, if_neg (fun h => hw h.symm)]

theorem foldl_addStats_eq : ∀ (F : List ActivityRow) (s : WeekStats),
    F.foldl addStats s =
      ⟨s.distance_m + sumDist F, s.duration_s + sumDur F,
       s.activities + F.length, s.calories + sumCal F⟩
  | [], s => by simp [sumDist, sumDur, sumCal]
  | r :: F, s => by
    rw [List.foldl_cons, foldl_addStats_eq F (addStats s r)]
    simp only [addStats, sumDist, sumDur, sumCal, List.map_cons, List.sum_cons,
      List.length_cons, WeekStats.mk.injEq]
    refine ⟨by ring, by ring, by omega, by ring⟩

theorem statsOf_none_ne_nil (F : List ActivityRow) (h : F ≠ []) :
    statsOf F none = some (F.foldl addStats zeroStats) := by
  cases F with
  | nil => exact absurd rfl h
  | cons r rest => rfl

theorem mondayOf_eq_iff (w d : Int) (hm : (w + 2) % 7 = 0) :
    mondayOf d = w ↔ (w ≤ d ∧ d < w + 7) := by
  unfold mondayOf weekdayOf
  omega

theorem weekKey_eq_inWindow (w : Int) (hm : (w + 2) % 7 = 0) (r : ActivityRow) :
    (weekKeyOf r == some w) = inWindowB w r := by
  unfold weekKeyOf inWindowB
  cases hst : r.start_time with
  | none => rfl
  | some s =>
    show ((if s = "" then none else Option.map mondayOf (parseIsoDay s)) == some w) =
      (match parseIsoDay s with
       | some d => decide (w ≤ d) && decide (d < w + 7)
       | none => false)
    by_cases hs : s = ""
    · subst hs
      rfl
    · rw [if_neg hs]
      cases hp : parseIsoDay s with
      | none => rfl
      | some d =>
        show (some (mondayOf d) == some w) = (decide (w ≤ d) && decide (d < w + 7))
        by_cases hd : mondayOf d = w
        · have hw2 := (mondayOf_eq_iff w d hm).mp hd
          simp [hd, hw2.1, hw2.2]
        · have hw2 : ¬(w ≤ d ∧ d < w + 7) := fun hc => hd ((mondayOf_eq_iff w d hm).mpr hc)
          have : (decide (w ≤ d) && decide (d < w + 7)) = decide (w ≤ d ∧ d < w + 7) :=
            (Bool.decide_and _ _).symm
          rw [this]
          simp [hd, hw2]

theorem addToWeeks_cons_eq (k : Int) (r : ActivityRow) (k2 : Int) (s : WeekStats)
    (rest : List (Int × WeekStats)) (h : k2 = k) :
    addToWeeks k r ((k2, s) :: rest) = (k2, addStats s r) :: rest := by
  show (if k2 = k then (k2, addStats s r) :: rest
    else (k2, s) :: addToWeeks k r rest) = _
  rw [if_pos h]

theorem addToWeeks_cons_ne (k : Int) (r : ActivityRow) (k2 : Int) (s : WeekStats)
    (rest : List (Int × WeekStats)) (h : ¬(k2 = k)) :
    addToWeeks k r ((k2, s) :: rest) = (k2, s) :: addToWeeks k r rest := by
  show (if k2 = k then (k2, addStats s r) :: rest
    else (k2, s) :: addToWeeks k r rest) = _
  rw [if_neg h]

theorem mem_weekKeys_addToWeeks (k : Int) (r : ActivityRow) :
    ∀ (acc : List (Int × WeekStats)) (w : Int),
      w ∈ weekKeys (addToWeeks k r acc) ↔ w ∈ weekKeys acc ∨ w = k
  | [], w => by simp [addToWeeks, weekKeys]
  | (k2, s) :: rest, w => by
    by_cases h2 : k2 = k
    · subst h2
      rw [addToWeeks_cons_eq _ _ _ _ _ rfl]
      simp only [weekKeys, List.map_cons, List.mem_cons]
      constructor
      · rintro (h | h)
        · exact Or.inl (Or.inl h)
        · exact Or.inl (Or.inr h)
      · rintro ((h | h) | h)
        · exact Or.inl h
        · exact Or.inr h
        · exact Or.inl h
    · rw [addToWeeks_cons_ne _ _ _ _ _ h2]
      simp only [weekKeys, List.map_cons, List.mem_cons]
      have := mem_weekKeys_addToWeeks k r rest w
      simp only [weekKeys] at this
      rw [this]
      tauto

theorem nodup_weekKeys_addToWeeks (k : Int) (r : ActivityRow) :
    ∀ (acc : List (Int × WeekStats)), (weekKeys acc).Nodup →
      (weekKeys (addToWeeks k r acc)).Nodup
  | [], _ => by simp [addToWeeks, weekKeys]
  | (k2, s) :: rest, h => by
    simp only [weekKeys, List.map_cons, List.nodup_cons] at h
    by_cases h2 : k2 = k
    · subst h2
      rw [addToWeeks_cons_eq _ _ _ _ _ rfl]
      simp only [weekKeys, List.map_cons, List.nodup_cons]
      exact h
    · rw [addToWeeks_cons_ne _ _ _ _ _ h2]
      simp only [weekKeys, List.map_cons, List.nodup_cons]
      refine ⟨?_, nodup_weekKeys_addToWeeks k r rest h.2⟩
      intro hc
      rcases (mem_weekKeys_addToWeeks k r rest k2).mp hc with h3 | h3
      · exact h.1 h3
      · exact h2 h3

theorem nodup_weekKeys_groupWeeks :
    ∀ (l : List ActivityRow) (acc : List (Int × WeekStats)),
      (weekKeys acc).Nodup → (weekKeys (groupWeeks acc l)).Nodup
  | [], _, h => h
  | r :: rest, acc, h => by
    cases hk : weekKeyOf r with
    | none =>
      simp only [groupWeeks, hk]
      exact nodup_weekKeys_groupWeeks rest acc h
    | some k =>
      simp only [groupWeeks, hk]
      exact nodup_weekKeys_groupWeeks rest _ (nodup_weekKeys_addToWeeks k r acc h)

theorem lookupWeeksA_eq_none :
    ∀ (l : List (Int × WeekStats)) (w : Int), w ∉ weekKeys l → lookupWeeksA w l = none
  | [], _, _ => rfl
  | (k, s) :: rest, w, h => by
    simp only [weekKeys, List.map_cons, List.mem_cons, not_or] at h
    rw [lookupWeeksA, if_neg (fun hc => h.1 hc.symm)]
    exact lookupWeeksA_eq_none rest w (by simpa [weekKeys] using h.2)

theorem mem_weekKeys_of_lookup (l : List (Int × WeekStats)) (w : Int)
    (s : WeekStats) (h : lookupWeeksA w l = some s) : w ∈ weekKeys l := by
  by_contra hc
  rw [lookupWeeksA_eq_none l w hc] at h
  exact Option.noConfusion h

theorem find?_map_of_pred {α : Type} (f : α → α) (p : α → Bool)
    (hf : ∀ x, p (f x) = p x) :
    ∀ l : List α, (l.map f).find? p = (l.find? p).map f
  | [] => rfl
  | x :: l => by
    by_cases hx : p x = true
    · rw [List.map_cons, @List.find?_cons_of_pos _ p (f x) (l.map f) (by rw [hf]; exact hx),
        @List.find?_cons_of_pos _ p x l hx]
      rfl
    · rw [List.map_cons, @List.find?_cons_of_neg _ p (f x) (l.map f) (by rw [hf]; exact hx),
        @List.find?_cons_of_neg _ p x l hx]
      exact find?_map_of_pred f p hf l

theorem weeklyUpd_matches (u : String) (k : Int) (dist dur : Rat) (cnt : Nat)
    (cal : Int) (now : Nat) (u2 : String) (w : Int) (r : WeeklyRow) :
    weeklyMatches u2 w (weeklyUpd u k dist dur cnt cal now r) = weeklyMatches u2 w r := by
  unfold weeklyUpd
  split <;> rfl

theorem lookupWeekly_upsert (db : DB) (u : String) (k : Int) (dist dur : Rat)
    (cnt : Nat) (cal : Int) (now : Nat) (w : Int) :
    lookupWeekly (upsert_weekly_stats db u k dist dur cnt cal now) u w =
      if w = k then some ⟨u, k, dist, dur, cnt, cal, now⟩
      else lookupWeekly db u w := by
  unfold upsert_weekly_stats lookupWeekly
  by_cases hany : db.weekly.any (weeklyMatches u k) = true
  · rw [if_pos hany]
    show (db.weekly.map (weeklyUpd u k dist dur cnt cal now)).find?
        (fun r => weeklyMatches u w r) = _
    rw [find?_map_of_pred _ _ (fun r => weeklyUpd_matches u k dist dur cnt cal now u w r)]
    by_cases hw : w = k
    · subst hw
      obtain ⟨r0, hr0, hm0⟩ := List.any_eq_true.mp hany
      cases hf : db.weekly.find? (fun r => weeklyMatches u w r) with
      | none =>
        exfalso
        rw [List.find?_eq_none] at hf
        exact hf r0 hr0 hm0
      | some r1 =>
        have hm1 : weeklyMatches u w r1 = true := List.find?_some hf
        rw [if_pos rfl]
        show some (weeklyUpd u w dist dur cnt cal now r1) = _
        unfold weeklyUpd
        rw [if_pos hm1]
        unfold weeklyMatches at hm1
        obtain ⟨h1, h2⟩ := (Bool.and_eq_true _ _).mp hm1
        have h1b : r1.user_name = u := by simpa using h1
        have h2b : r1.week_start = w := by simpa using h2
        rw [h1b, h2b]
    · rw [if_neg hw]
      cases hf : db.weekly.find? (fun r => weeklyMatches u w r) with
      | none => rfl
      | some r1 =>
        have hm1 : weeklyMatches u w r1 = true := List.find?_some hf
        have hfalse : weeklyMatches u k r1 = false := by
          unfold weeklyMatches at hm1 ⊢
          obtain ⟨h1, h2⟩ := (Bool.and_eq_true _ _).mp hm1
          have h2b : r1.week_start = w := by simpa using h2
          have : (r1.week_start == k) = false := by
            rw [h2b]
            simpa using fun hc : w = k => hw hc
          rw [this]
          simp
        show some (weeklyUpd u k dist dur cnt cal now r1) = some r1
        unfold weeklyUpd
        rw [if_neg (by rw [hfalse]; exact Bool.false_ne_true)]
  · rw [if_neg hany]
    show (db.weekly ++ [⟨u, k, dist, dur, cnt, cal, now⟩] : List WeeklyRow).find?
        (fun r => weeklyMatches u w r) = _
    rw [List.find?_append]
    by_cases hw : w = k
    · subst hw
      have hnone : db.weekly.find? (fun r => weeklyMatches u w r) = none := by
        rw [List.find?_eq_none]
        intro x hx hc
        exact hany (List.any_eq_true.mpr ⟨x, hx, hc⟩)
      rw [hnone, if_pos rfl]
      simp [List.find?_cons, weeklyMatches]
    · rw [if_neg hw]
      have hm : weeklyMatches u w (⟨u, k, dist, dur, cnt, cal, now⟩ : WeeklyRow) = false := by
        unfold weeklyMatches
        have : ((k : Int) == w) = false := by
          simpa using fun hc : k = w => hw hc.symm
        show (((u : String) == u) && (k == w)) = false
        rw [this]
        simp
      have hsingle : List.find? (fun r => weeklyMatches u w r)
          [(⟨u, k, dist, dur, cnt, cal, now⟩ : WeeklyRow)] = none := by
        rw [List.find?_eq_none]
        intro x hx hc
        rw [List.mem_singleton.mp hx] at hc
        rw [hm] at hc
        exact Bool.false_ne_true hc
      rw [hsingle, Option.or_none]

theorem lookupWeekly_writeWeeks (u : String) (now : Nat) :
    ∀ (weeks : List (Int × WeekStats)) (db : DB) (w : Int),
      (weekKeys weeks).Nodup →
      lookupWeekly (writeWeeks u now db weeks) u w =
        (match lookupWeeksA w weeks with
         | some s => some ⟨u, w, s.distance_m, s.duration_s, s.activities, s.calories, now⟩
         | none => lookupWeekly db u w)
  | [], db, w, _ => rfl
  | (k, s) :: rest, db, w, hnd => by
    simp only [weekKeys, List.map_cons, List.nodup_cons] at hnd
    show lookupWeekly (writeWeeks u now
      (upsert_weekly_stats db u k s.distance_m s.duration_s s.activities s.calories now)
      rest) u w = _
    rw [lookupWeekly_writeWeeks u now rest _ w (by simpa [weekKeys] using hnd.2)]
    cases hcase : lookupWeeksA w rest with
    | some s2 =>
      have hne : ¬(k = w) := by
        intro h
        subst h
        exact hnd.1 (by simpa [weekKeys] using mem_weekKeys_of_lookup rest k s2 hcase)
      show _ = (match lookupWeeksA w ((k, s) :: rest) with
        | some s => some (⟨u, w, s.distance_m, s.duration_s, s.activities, s.calories, now⟩ : WeeklyRow)
        | none => lookupWeekly db u w)
      rw [show lookupWeeksA w ((k, s) :: rest) = lookupWeeksA w rest from by
        rw [lookupWeeksA, if_neg hne], hcase]
    | none =>
      rw [lookupWeekly_upsert]
      by_cases hw : w = k
      · subst hw
        rw [if_pos rfl]
        rw [show lookupWeeksA w ((w, s) :: rest) = some s from by
          rw [lookupWeeksA, if_pos rfl]]
      · rw [if_neg hw]
        rw [show lookupWeeksA w ((k, s) :: rest) = lookupWeeksA w rest from by
          rw [lookupWeeksA, if_neg (fun hc => hw hc.symm)], hcase]

/-- C2 amended: for every user whose cached-activity count is within the
10000-row ceiling compute_weekly_stats reads, and every Monday-start week w
containing at least one bucketable cached activity, the stored rollup for
(user, w) after recomputation equals exactly the sums of distance, duration
and calories, and the count, over precisely the cached activities of that
user whose parsed start time falls within [w, w + 7); the stored row is the
freshly computed one (computed_at = now), fully replacing any prior totals. -/
theorem c2_rollup_exact_bounded (db : DB) (u : String) (w : Int) (now : Nat)
    (hcount : get_activity_count db u ≤ 10000)
    (hmon : (w + 2) % 7 = 0)
    (hne : perWeek db u w ≠ []) :
    lookupWeekly (compute_weekly_stats db u now) u w =
      some ⟨u, w, sumDist (perWeek db u w), sumDur (perWeek db u w),
            (perWeek db u w).length, sumCal (perWeek db u w), now⟩ := by
  have hL : get_cached_activities db (some u) 10000 =
      (db.activities.filter (fun r => r.user_name == u)).insertionSort startTimeDescLe := by
    show ((db.activities.filter (fun r => r.user_name == u)).insertionSort
      startTimeDescLe).take 10000 = _
    apply List.take_of_length_le
    rw [(List.perm_insertionSort startTimeDescLe _).length_eq]
    exact hcount
  have hpermF : (((db.activities.filter (fun r => r.user_name == u)).insertionSort
      startTimeDescLe).filter (fun r => weekKeyOf r == some w)).Perm (perWeek db u w) := by
    have h1 := (List.perm_insertionSort startTimeDescLe
      (db.activities.filter (fun r => r.user_name == u))).filter
      (fun r => weekKeyOf r == some w)
    have h2 : (db.activities.filter (fun r => r.user_name == u)).filter
        (fun r => weekKeyOf r == some w) = perWeek db u w := by
      rw [List.filter_filter]
      unfold perWeek
      apply List.filter_congr
      intro x _
      rw [weekKey_eq_inWindow w hmon x]
      exact Bool.and_comm _ _
    rw [h2] at h1
    exact h1
  have hFne : ((db.activities.filter (fun r => r.user_name == u)).insertionSort
      startTimeDescLe).filter (fun r => weekKeyOf r == some w) ≠ [] := by
    intro h0
    rw [h0] at hpermF
    exact hne (List.nil_perm.mp hpermF)
  have hd : sumDist (((db.activities.filter (fun r => r.user_name == u)).insertionSort
      startTimeDescLe).filter (fun r => weekKeyOf r == some w)) = sumDist (perWeek db u w) := by
    unfold sumDist
    exact (hpermF.map ActivityRow.distance_m).sum_eq
  have hdu : sumDur (((db.activities.filter (fun r => r.user_name == u)).insertionSort
      startTimeDescLe).filter (fun r => weekKeyOf r == some w)) = sumDur (perWeek db u w) := by
    unfold sumDur
    exact (hpermF.map ActivityRow.duration_s).sum_eq
  have hc : sumCal (((db.activities.filter (fun r => r.user_name == u)).insertionSort
      startTimeDescLe).filter (fun r => weekKeyOf r == some w)) = sumCal (perWeek db u w) := by
    unfold sumCal
    exact (hpermF.map ActivityRow.calories).sum_eq
  have hlen : (((db.activities.filter (fun r => r.user_name == u)).insertionSort
      startTimeDescLe).filter (fun r => weekKeyOf r == some w)).length =
      (perWeek db u w).length := hpermF.length_eq
  show lookupWeekly (writeWeeks u now db
    (groupWeeks [] (get_cached_activities db (some u) 10000))) u w = _
  rw [lookupWeekly_writeWeeks u now _ db w
    (nodup_weekKeys_groupWeeks _ [] (by simp [weekKeys])), lookupWeeksA_groupWeeks, hL]
  rw [show lookupWeeksA w ([] : List (Int × WeekStats)) = none from rfl]
  rw [statsOf_none_ne_nil _ hFne, foldl_addStats_eq]
  show some (⟨u, w, zeroStats.distance_m + _, zeroStats.duration_s + _,
    zeroStats.activities + _, zeroStats.calories + _, now⟩ : WeeklyRow) = _
  simp only [zeroStats, zero_add, Nat.zero_add, hd, hdu, hc, hlen]

/-- C2 amended witness: the store holding the three §8 example records of
user "pat" rolls up exactly. -/
theorem c2_rollup_exact_bounded_witness :
    lookupWeekly (compute_weekly_stats patDB "pat" 11) "pat" mondayW =
      some ⟨"pat", mondayW, sumDist (perWeek patDB "pat" mondayW),
            sumDur (perWeek patDB "pat" mondayW),
            (perWeek patDB "pat" mondayW).length,
            sumCal (perWeek patDB "pat" mondayW), 11⟩ :=
  c2_rollup_exact_bounded patDB "pat" mondayW 11 (by decide) (by decide) (by decide)

theorem bigActsAux_length : ∀ (n s : Nat), (bigActsAux n s).length = n
  | 0, _ => rfl
  | n + 1, s => by
    show (mkAct s :: bigActsAux n (s + 1)).length = n + 1
    rw [List.length_cons, bigActsAux_length n (s + 1)]

theorem bigActsAux_mem : ∀ (n s : Nat) (r : ActivityRow),
    r ∈ bigActsAux n s → ∃ i, mkAct i = r
  | 0, _, r, h => absurd h (List.not_mem_nil r)
  | n + 1, s, r, h => by
    rw [show bigActsAux (n + 1) s = mkAct s :: bigActsAux n (s + 1) from rfl] at h
    rcases List.mem_cons.mp h with h1 | h2
    · exact ⟨s, h1.symm⟩
    · exact bigActsAux_mem n (s + 1) r h2

/-- C2 counterexample: a user with 10001 cached activities, all inside the
same Monday-start week, gets a stored rollup counting only 10000 of them,
because compute_weekly_stats reads the cache through a LIMIT of 10000 rows;
the claim's exact-sum property fails for this store. -/
theorem c2_rollup_limit_counterexample :
    (lookupWeekly (compute_weekly_stats bigDB "anto" 0) "anto" mondayW).map
      WeeklyRow.total_activities = some 10000 ∧
    (perWeek bigDB "anto" mondayW).length = 10001 ∧
    (mondayW + 2) % 7 = 0 := by
  have hweek : ∀ i : Nat, weekKeyOf (mkAct i) = some mondayW := fun i => rfl
  have hacts1 : bigDB.activities = bigActs := rfl
  have hmem : ∀ r ∈ bigDB.activities, ∃ i, mkAct i = r := by
    intro r hr
    rw [hacts1] at hr
    unfold bigActs at hr
    exact bigActsAux_mem 10001 0 r hr
  have hlen0 : bigDB.activities.length = 10001 := by
    rw [hacts1]
    unfold bigActs
    exact bigActsAux_length 10001 0
  have hfilU : bigDB.activities.filter (fun r => r.user_name == "anto") =
      bigDB.activities := by
    rw [List.filter_eq_self]
    intro r hr
    obtain ⟨i, hi⟩ := hmem r hr
    rw [← hi]
    rfl
  refine ⟨?_, ?_, by decide⟩
  · have hsorted := List.perm_insertionSort startTimeDescLe bigDB.activities
    have hslen : (bigDB.activities.insertionSort startTimeDescLe).length = 10001 := by
      rw [hsorted.length_eq, hlen0]
    have hL : get_cached_activities bigDB (some "anto") 10000 =
        (bigDB.activities.insertionSort startTimeDescLe).take 10000 := by
      show ((bigDB.activities.filter (fun r => r.user_name == "anto")).insertionSort
        startTimeDescLe).take 10000 = _
      rw [hfilU]
    have hLlen : (get_cached_activities bigDB (some "anto") 10000).length = 10000 := by
      rw [hL, List.length_take, hslen]
      omega
    have hLweek : ∀ r ∈ get_cached_activities bigDB (some "anto") 10000,
        weekKeyOf r = some mondayW := by
      intro r hr
      rw [hL] at hr
      have h1 : r ∈ bigDB.activities.insertionSort startTimeDescLe :=
        List.take_subset _ _ hr
      have h2 : r ∈ bigDB.activities := hsorted.subset h1
      obtain ⟨i, hi⟩ := hmem r h2
      rw [← hi]
      exact hweek i
    have hF : (get_cached_activities bigDB (some "anto") 10000).filter
        (fun r => weekKeyOf r == some mondayW) =
        get_cached_activities bigDB (some "anto") 10000 := by
      rw [List.filter_eq_self]
      intro r hr
      rw [hLweek r hr]
      simp
    have hFne : (get_cached_activities bigDB (some "anto") 10000).filter
        (fun r => weekKeyOf r == some mondayW) ≠ [] := by
      intro h0
      rw [hF] at h0
      rw [h0] at hLlen
      exact absurd hLlen (by decide)
    show (lookupWeekly (writeWeeks "anto" 0 bigDB
      (groupWeeks [] (get_cached_activities bigDB (some "anto") 10000))) "anto"
      mondayW).map WeeklyRow.total_activities = some 10000
    rw [lookupWeekly_writeWeeks "anto" 0 _ bigDB mondayW
      (nodup_weekKeys_groupWeeks _ [] (by simp [weekKeys])), lookupWeeksA_groupWeeks]
    rw [show lookupWeeksA mondayW ([] : List (Int × WeekStats)) = none from rfl]
    rw [statsOf_none_ne_nil _ hFne, foldl_addStats_eq, hF]
    rw [hLlen]
    rfl
  · have hall : perWeek bigDB "anto" mondayW = bigDB.activities := by
      unfold perWeek
      rw [List.filter_eq_self]
      intro r hr
      obtain ⟨i, hi⟩ := hmem r hr
      rw [← hi]
      rfl
    rw [hall, hlen0]

end GarminExplorer
